import Mathlib

/-!
Verification of `imteksimfw/fireworks/user_objects/firetasks/recover_tasks.py`
(repository jotelha/jlhfw) against its natural-language specification.

The Python module is shallowly embedded below.  JSON-like `fw_spec`
dictionaries become the inductive type `Value` / association lists `Dct`
(Python dicts are insertion ordered with unique keys; the association-list
operations below mirror dict semantics on such lists).  Fallible Python code
(subscript errors, type errors, raised exceptions) is modelled in the
`Except PyErr` monad.  Recursive Python functions whose recursion depth is
bounded by the nesting depth of the input data carry an explicit `Nat`
recursion budget; exhausting it yields `PyErr.recursionError`, the analogue of
the Python RecursionError, and never fires on inputs whose nesting is below the
budget.
-/

/-- Python exception kinds raised by the modelled code paths. -/
inductive PyErr where
  | keyError
  | typeError
  | valueError
  | indexError
  | recursionError
deriving DecidableEq, Repr

/-- JSON-like values stored in FireWorks spec dictionaries. -/
inductive Value where
  | bool (b : Bool)
  | int (n : Int)
  | str (s : String)
  | list (l : List Value)
  | dict (d : List (String × Value))

/-- Python dict with string keys, as an insertion-ordered association list. -/
abbrev Dct := List (String × Value)

/-- Python `d[k]` as an optional lookup (first, i.e. unique, matching entry). -/
def pyGet (d : Dct) (k : String) : Option Value :=
  (d.find? (fun p => p.1 == k)).map (fun p => p.2)

/-- Python `k in d` membership test for dicts. -/
def pyIn (k : String) (d : Dct) : Bool :=
  d.any (fun p => p.1 == k)

/-- Python `d[k]` where the caller has established presence; defaults to `{}`. -/
def pyGetD (d : Dct) (k : String) : Value :=
  (pyGet d k).getD (.dict [])

/-- Python `del d[k]`. -/
def pyDel (d : Dct) (k : String) : Dct :=
  d.filter (fun p => p.1 != k)

/-- Python `d[k] = v`: replace the existing entry in place, else append. -/
def pySet (d : Dct) (k : String) (v : Value) : Dct :=
  if pyIn k d then d.map (fun p => if p.1 == k then (k, v) else p)
  else d ++ [(k, v)]

/-- Python `isinstance(v, dict)` (and `isinstance(v, collections.Mapping)`:
only dicts are mappings among our value kinds). -/
def isDict : Value → Bool
  | .dict _ => true
  | _ => false

/-- Python `for k in x` over a value expected to be a dict: yields the entries
of a mapping and raises TypeError otherwise (the arguments fed to this loop in
`dict_merge` are mappings or the Boolean True coming from a nested exclusion
entry; iterating True raises TypeError). -/
def iterKeys : Value → Except PyErr Dct
  | .dict d => .ok d
  | _ => .error .typeError

/-- Python `k in x` where `x` is an arbitrary value expected to be a dict;
membership on a non-iterable (Boolean, number, None) raises TypeError. -/
def pyContains : Value → String → Except PyErr Bool
  | .dict d, k => .ok (pyIn k d)
  | _, _ => .error .typeError

/-- Lookup `x[k]` on a value known to be a dict (used where a preceding
membership test established presence). -/
def mexclLookup : Value → String → Option Value
  | .dict d, k => pyGet d k
  | _, _ => none

/-- Loop body of recover_tasks.py lines 117-143: iterate the (already
preprocessed) items of `merge_dct`, threading the updated `dct`.  The
recursive nested merge of line 129/133 is abstracted as `recMerge` (the
callers pass `dict_merge` at a smaller recursion budget, with `add_keys`
captured); `excl` is the already-validated `exclusions` mapping and `mexcl`
the raw `merge_exclusions` argument. -/
def dict_mergeItems (recMerge : Dct → Dct → Value → Value → Except PyErr Dct)
    (dct : Dct) (items : List (String × Value)) (excl : Dct) (mexcl : Value) :
    Except PyErr Dct :=
  match items with
  | [] => .ok dct
  | (k, v) :: rest =>
    -- lines 118-123: lower_level_exclusions = exclusions[k] if k in exclusions else {}
    let lower : Value := if pyIn k excl then pyGetD excl k else .dict []
    -- line 125: k in dct and isinstance(dct[k], dict) and isinstance(v, Mapping)
    match pyGet dct k, v with
    | some (.dict dk), .dict dv => do
        -- line 127: if k not in merge_exclusions (TypeError on non-mapping)
        let inM ← pyContains mexcl k
        if inM = false then do
          -- lines 129-130: recurse without forwarding merge_exclusions
          let sub ← recMerge dk dv lower (.dict [])
          dict_mergeItems recMerge (pySet dct k (.dict sub)) rest excl mexcl
        else
          match mexclLookup mexcl k with
          | some (.bool true) =>
              -- line 137: key excluded from merge, dct[k] untouched
              dict_mergeItems recMerge dct rest excl mexcl
          | some mv => do
              -- lines 133-135: recurse forwarding merge_exclusions[k]
              let sub ← recMerge dk dv lower mv
              dict_mergeItems recMerge (pySet dct k (.dict sub)) rest excl mexcl
          | none =>
              -- unreachable: inM established k in mexcl
              .error .keyError
    | _, _ => do
        -- line 139: if k not in merge_exclusions
        let inM ← pyContains mexcl k
        if inM = false then
          -- line 141: dct[k] = v
          dict_mergeItems recMerge (pySet dct k v) rest excl mexcl
        else
          -- line 143: key excluded from merge
          dict_mergeItems recMerge dct rest excl mexcl

/-- Recursive dict merge of recover_tasks.py lines 59-145.  `merge_dct` is
merged into `dct`; `exclusions` and `merge_exclusions` are the per-key
exclusion structures (mappings whose entries are True or nested such
mappings).  The first argument bounds the nesting recursion of line 129/133
(the Python recursion is bounded by the nesting depth of the dicts). -/
def dict_merge : Nat → Dct → Dct → Bool → Value → Value → Except PyErr Dct
  | 0, _, _, _, _, _ => .error .recursionError
  | fuel + 1, dct, merge_dct, add_keys, exclusions, merge_exclusions => do
      -- lines 101-104: for k in exclusions: if (k in dct) and (dct[k] is True): del dct[k]
      -- note the source tests the VALUE dct[k] against True, not exclusions[k]
      let excl ← iterKeys exclusions
      let dct1 := excl.foldl (fun d p =>
        match pyGet d p.1 with
        | some (.bool true) => pyDel d p.1
        | _ => d) dct
      -- lines 106-108: if not add_keys: restrict merge_dct to keys already in dct
      let mdct1 := if add_keys then merge_dct
        else merge_dct.filter (fun p => pyIn p.1 dct1)
      -- lines 113-115: for k in dct: if dct[k] is a dict and k not in merge_dct:
      -- merge_dct[k] = {}
      let mdct2 := dct1.foldl (fun m p =>
        if isDict p.2 && !(pyIn p.1 m) then pySet m p.1 (.dict []) else m) mdct1
      -- lines 117-145
      dict_mergeItems (fun d m e me => dict_merge fuel d m add_keys e me)
        dct1 mdct2 excl merge_exclusions

/-- Splitting helper for `key.split("->")` (fireworks dict_mods arrow paths):
consumes the characters, cutting at each non-overlapping `->` occurrence. -/
def splitArrowAux : List Char → List Char → List String
  | [], acc => [String.mk acc.reverse]
  | [c], acc => [String.mk (c :: acc).reverse]
  | c1 :: c2 :: rest, acc =>
      if c1 = '-' && c2 = '>' then String.mk acc.reverse :: splitArrowAux rest []
      else splitArrowAux (c2 :: rest) (c1 :: acc)

/-- Python `key.split("->")`; always returns a non-empty list. -/
def splitArrow (key : String) : List String := splitArrowAux key.data []

/-- Descend a `->` path through a value, as the fireworks function
`get_nested_dict_value` does: subscripting a missing key raises KeyError,
subscripting a non-mapping raises TypeError. -/
def getNestedAux : Value → List String → Except PyErr Value
  | v, [] => .ok v
  | .dict d, k :: rest =>
      match pyGet d k with
      | some v => getNestedAux v rest
      | none => .error .keyError
  | _, _ :: _ => .error .typeError

/-- Model of `fireworks.utilities.dict_mods.get_nested_dict_value` (external
collaborator): follow the `->`-delimited path into nested dicts. -/
def get_nested_dict_value (root : Value) (key : String) : Except PyErr Value :=
  getNestedAux root (splitArrow key)

/-- Descend/create a `->` path and set the final key, on token lists.  An
existing non-dict intermediate raises TypeError (Python subscript-assignment
on such a value).  The `[]` token list never arises (`split` is non-empty)
and is treated as a no-op. -/
def setNestedAux : Dct → List String → Value → Except PyErr Dct
  | d, [], _ => .ok d
  | d, [k], val => .ok (pySet d k val)
  | d, k :: k2 :: rest, val =>
      match pyGet d k with
      | none => do
          let sub ← setNestedAux [] (k2 :: rest) val
          .ok (pySet d k (.dict sub))
      | some (.dict dk) => do
          let sub ← setNestedAux dk (k2 :: rest) val
          .ok (pySet d k (.dict sub))
      | some _ => .error .typeError

/-- Model of `fireworks.utilities.dict_mods.set_nested_dict_value` (external
collaborator): set `val` at the `->`-delimited path, creating intermediate
dicts. -/
def set_nested_dict_value (d : Dct) (key : String) (val : Value) :
    Except PyErr Dct :=
  setNestedAux d (splitArrow key) val

/-- Python `int(v)` on the value kinds that can appear as a restart counter:
ints pass through, Booleans coerce, numeric strings parse (ValueError
otherwise), containers raise TypeError. -/
def pyToInt : Value → Except PyErr Int
  | .int n => .ok n
  | .bool b => .ok (if b then 1 else 0)
  | .str s =>
      match s.toInt? with
      | some n => .ok n
      | none => .error .valueError
  | _ => .error .typeError

/-- Firework node: integer identifier, name, and spec dictionary (task list
omitted: no modelled code path reads it). -/
structure FW where
  fw_id : Int
  name : String
  spec : Dct

/-- Workflow: node list plus child-adjacency (`links`), mirroring
`fireworks.core.firework.Workflow`. -/
structure WF where
  fws : List FW
  links : List (Int × List Int)

/-- Workflow.leaf_fw_ids: identifiers with an empty child list. -/
def WF.leaf_fw_ids (wf : WF) : List Int :=
  (wf.links.filter (fun p => p.2.isEmpty)).map (fun p => p.1)

/-- Workflow.root_fw_ids: identifiers that are not any child. -/
def WF.root_fw_ids (wf : WF) : List Int :=
  (wf.fws.map (fun f => f.fw_id)).filter
    (fun i => !(wf.links.any (fun p => p.2.contains i)))

/-- Workflow.id_fw lookup. -/
def WF.id_fw (wf : WF) (i : Int) : Option FW :=
  wf.fws.find? (fun fw => fw.fw_id == i)

/-- Workflow.links lookup for one node. -/
def WF.linksOf (wf : WF) (i : Int) : Option (List Int) :=
  (wf.links.find? (fun p => p.1 == i)).map (fun p => p.2)

/-- Replace the spec of the node with the given identifier. -/
def WF.setSpecAt (wf : WF) (i : Int) (spec : Dct) : WF :=
  { wf with fws := wf.fws.map (fun fw =>
      if fw.fw_id == i then { fw with spec := spec } else fw) }

/-- Model of `fireworks.core.firework.Workflow.append_wf` (external
collaborator) for the non-detour mode used by recover_tasks.py: add
the nodes and links of `new_wf` to `wf` (ValueError on an identifier collision)
and register the roots of `new_wf` as children of every node listed in `fw_ids`. -/
def append_wf (wf new_wf : WF) (fw_ids : List Int) : Except PyErr WF :=
  if new_wf.fws.any (fun nf => wf.fws.any (fun f => f.fw_id == nf.fw_id)) then
    .error .valueError
  else
    .ok { fws := wf.fws ++ new_wf.fws,
          links := (wf.links.map (fun p =>
              if fw_ids.contains p.1 then (p.1, p.2 ++ new_wf.root_fw_ids)
              else p)) ++ new_wf.links }

/-- Lines 900-903 of recover_tasks.py: combine the (already built) restart
fragment with the detour fragment.  With a detour present the source calls
`detour_wf.append_wf(restart_wf, [])`, i.e. it passes an empty parent list;
without one the restart fragment itself becomes the combined fragment. -/
def spliceCombine (restart_wf : WF) (detour_wf : Option WF) : Except PyErr WF :=
  match detour_wf with
  | some d => append_wf d restart_wf []
  | none => .ok restart_wf

/-- Lines 810-835 of recover_tasks.py: derive the restart count for this
attempt.  First lookup: the spec of the fizzled or previous job at the counter path
(KeyError caught, logged).  Second lookup when the first found nothing: the
comment in the source says to consult the own `fw_spec` of the current job, but the
code subscripts the spec entry of `prev_job_info` again; `fw_spec` stays unused (kept
here as a parameter to state that fact).  A still-missing counter defaults
to 0; a found counter is `int(...)`-converted and incremented by 1. -/
def deriveRestartCount (prev_job_info : Dct) (fw_spec : Dct)
    (restart_counter : String) : Except PyErr Int := do
  let rc1 : Option Value ←
    if !prev_job_info.isEmpty && pyIn "spec" prev_job_info then
      match pyGet prev_job_info "spec" with
      | some sv =>
          match get_nested_dict_value sv restart_counter with
          | .ok v => pure (some v)
          | .error .keyError => pure none
          | .error e => throw e
      | none => pure none
    else pure none
  let rc2 : Option Value ←
    match rc1 with
    | some v => pure (some v)
    | none =>
        match pyGet prev_job_info "spec" with
        | none => pure none
        | some sv =>
            match get_nested_dict_value sv restart_counter with
            | .ok v => pure (some v)
            | .error .keyError => pure none
            | .error e => throw e
  match rc2 with
  | none => pure 0
  | some v => do
      let n ← pyToInt v
      pure (n + 1)

/-- Lines 856-858 of recover_tasks.py: write the derived restart count into
the spec of every node of the restart fragment at the counter path. -/
def injectRestartCount (counter : String) (count : Int) :
    List FW → Except PyErr (List FW)
  | [] => .ok []
  | fw :: rest => do
      let s ← set_nested_dict_value fw.spec counter (.int count)
      let others ← injectRestartCount counter count rest
      .ok ({ fw with spec := s } :: others)

/-- Lines 810-858 plus 922-925 of recover_tasks.py, restricted to the
restart-count decision: derive the count, build (and count-stamp) the restart
fragment exactly when `count < max_restarts + 1`, otherwise log and skip.
The materialisation of `restart_wf` from its dict description is abstracted
as the already-built node list `restart_fws`. -/
def restartBuildDecision (prev_job_info : Dct) (fw_spec : Dct)
    (restart_counter : String) (max_restarts : Int) (restart_fws : List FW) :
    Except PyErr (Option (List FW) × Int) := do
  let count ← deriveRestartCount prev_job_info fw_spec restart_counter
  if count < max_restarts + 1 then do
    let fws2 ← injectRestartCount restart_counter count restart_fws
    .ok (some fws2, count)
  else
    .ok (none, count)

/-- Python `dict.update(overlay)`: shallow overwrite of each overlay entry. -/
def dictUpdate (d overlay : Dct) : Dct :=
  overlay.foldl (fun acc p => pySet acc p.1 p.2) d

/-- Model of `fireworks.utilities.dict_mods.apply_mod` (external collaborator)
for the `_set` operator used by recover_tasks.py (`dict_mod` defaults to
`_set`); other operators are summarily rejected with ValueError. -/
def apply_mod (mod : Dct) (spec : Dct) : Except PyErr Dct :=
  mod.foldlM (fun s p =>
    match p with
    | ("_set", .dict assigns) =>
        assigns.foldlM (fun s2 a => set_nested_dict_value s2 a.1 a.2) s
    | _ => .error .valueError) spec

/-- Python `for mod in action.mod_spec: apply_mod(mod, spec)`. -/
def applyMods : List Dct → Dct → Except PyErr Dct
  | [], s => .ok s
  | m :: rest, s => do
      let s2 ← apply_mod m s
      applyMods rest s2

/-- FWAction fields consumed by `apply_mod_spec` (lines 163-206). -/
structure FWActionM where
  update_spec : Dct := []
  mod_spec : List Dct := []
  propagate : Bool := false

/-- Loop of `recursive_update_spec` (lines 172-178): walk a child-id list,
threading the workflow, the visited set and the updated-id list; `step`
performs the per-node visit (the callers pass `recUpdateStep` at a smaller
recursion budget). -/
def recUpdateLoop
    (step : Int → WF × List Int × List Int →
      Except PyErr (WF × List Int × List Int)) :
    List Int → WF × List Int × List Int →
      Except PyErr (WF × List Int × List Int)
  | [], st => .ok st
  | cfid :: rest, st => do
      let st2 ← step cfid st
      recUpdateLoop step rest st2

/-- Per-node visit of `recursive_update_spec` (lines 173-178): skip visited
identifiers, otherwise update the spec of the node and recurse into
`wf.links[cfid]`.  Missing identifiers in `id_fw`/`links` raise KeyError. -/
def recUpdateStep (upd : Dct) :
    Nat → Int → WF × List Int × List Int →
      Except PyErr (WF × List Int × List Int)
  | 0, _, _ => .error .recursionError
  | fuel + 1, cfid, (wf, visited, updated) =>
      if visited.contains cfid then .ok (wf, visited, updated)
      else
        match wf.id_fw cfid, wf.linksOf cfid with
        | some fw, some children =>
            recUpdateLoop (recUpdateStep upd fuel) children
              (wf.setSpecAt cfid (dictUpdate fw.spec upd),
               cfid :: visited, updated ++ [cfid])
        | _, _ => .error .keyError

/-- Argument of `recursive_mod_spec`: line 197 of the source passes the bare
integer `cfid` where a list of identifiers is expected, so the recursive call
receives an int; iterating an int raises TypeError. -/
inductive PyIntOrList where
  | int (i : Int)
  | list (l : List Int)

/-- Loop of `recursive_mod_spec` (lines 191-197): per unvisited node, apply
every mod to its spec, then recurse — on the bare node id `cfid` (line 197),
not on its child list. -/
def recModLoop
    (recur : PyIntOrList → WF × List Int × List Int →
      Except PyErr (WF × List Int × List Int)) (mods : List Dct) :
    List Int → WF × List Int × List Int →
      Except PyErr (WF × List Int × List Int)
  | [], st => .ok st
  | cfid :: rest, (wf, visited, updated) => do
      let st2 ←
        if visited.contains cfid then
          .ok ((wf, visited, updated) : WF × List Int × List Int)
        else
          match wf.id_fw cfid with
          | some fw => do
              let spec2 ← applyMods mods fw.spec
              recur (.int cfid)
                (wf.setSpecAt cfid spec2, cfid :: visited, updated ++ [cfid])
          | none => .error .keyError
      recModLoop recur mods rest st2

/-- Entry of `recursive_mod_spec` (lines 190-197): `for cfid in fw_ids` over
the argument; when the argument is the bare int of line 197, iteration raises
TypeError. -/
def recModStep (mods : List Dct) :
    Nat → PyIntOrList → WF × List Int × List Int →
      Except PyErr (WF × List Int × List Int)
  | 0, _, _ => .error .recursionError
  | _fuel + 1, .int _, _ => .error .typeError
  | fuel + 1, .list ids, st => recModLoop (recModStep mods fuel) mods ids st

/-- Non-propagating update branch (lines 181-185): update only the starting
identifiers. -/
def plainUpdateLoop (upd : Dct) :
    List Int → WF × List Int × List Int →
      Except PyErr (WF × List Int × List Int)
  | [], st => .ok st
  | cfid :: rest, (wf, visited, updated) =>
      match wf.id_fw cfid with
      | some fw =>
          plainUpdateLoop upd rest
            (wf.setSpecAt cfid (dictUpdate fw.spec upd), visited,
             updated ++ [cfid])
      | none => .error .keyError

/-- Non-propagating mod branch (lines 200-204). -/
def plainModLoop (mods : List Dct) :
    List Int → WF × List Int × List Int →
      Except PyErr (WF × List Int × List Int)
  | [], st => .ok st
  | cfid :: rest, (wf, visited, updated) =>
      match wf.id_fw cfid with
      | some fw =>
          match applyMods mods fw.spec with
          | .ok spec2 =>
              plainModLoop mods rest
                (wf.setSpecAt cfid spec2, visited, updated ++ [cfid])
          | .error e => .error e
      | none => .error .keyError

/-- recover_tasks.py lines 163-206, `apply_mod_spec(wf, action)`: apply
`update_spec` and `mod_spec` to the leaf nodes of the workflow, recursively when
`action.propagate` (each recursion maintains its own fresh visited set);
returns the mutated workflow and the collected updated identifiers. -/
def apply_mod_spec (fuel : Nat) (wf : WF) (action : FWActionM) :
    Except PyErr (WF × List Int) := do
  let fw_ids := wf.leaf_fw_ids
  let st1 ←
    if !action.update_spec.isEmpty && action.propagate then
      recUpdateLoop (recUpdateStep action.update_spec fuel) fw_ids (wf, [], [])
    else if !action.update_spec.isEmpty then
      plainUpdateLoop action.update_spec fw_ids (wf, [], [])
    else .ok (wf, [], [])
  match st1 with
  | (wf1, _, updated1) => do
      let st2 ←
        if !action.mod_spec.isEmpty && action.propagate then
          recModStep action.mod_spec fuel (.list fw_ids) (wf1, [], updated1)
        else if !action.mod_spec.isEmpty then
          plainModLoop action.mod_spec fw_ids (wf1, [], updated1)
        else .ok (wf1, [], updated1)
      match st2 with
      | (wf2, _, updated2) => .ok (wf2, updated2)

/-- Character-class matcher for glob bracket expressions: explicit ranges
`a-b` and literal members. -/
def classAccepts : List Char → Char → Bool
  | a :: '-' :: b :: rest, c => (a ≤ c && c ≤ b) || classAccepts rest c
  | a :: rest, c => (c == a) || classAccepts rest c
  | [], _ => false

/-- Glob matcher core over character lists, modelling the external
`glob.glob`/`fnmatch` collaborator for the pattern features used by the task
(`*`, `?`, bracket classes; an unterminated `[` matches itself literally).
The budget only bounds the recursion; each step consumes a pattern or subject
character, so `pattern.length + subject.length + 1` always suffices. -/
def globMatchAux : Nat → List Char → List Char → Bool
  | 0, _, _ => false
  | fuel + 1, pat, s =>
      match pat, s with
      | [], t => t.isEmpty
      | '*' :: p, t =>
          globMatchAux fuel p t ||
            (match t with
             | [] => false
             | _ :: t2 => globMatchAux fuel ('*' :: p) t2)
      | '?' :: p, t =>
          (match t with
           | [] => false
           | _ :: t2 => globMatchAux fuel p t2)
      | '[' :: p, t =>
          (match t with
           | [] => false
           | c :: t2 =>
               if (p.dropWhile (fun x => x != ']')).isEmpty then
                 (c == '[') && globMatchAux fuel p t2
               else
                 classAccepts (p.takeWhile (fun x => x != ']')) c &&
                   globMatchAux fuel ((p.dropWhile (fun x => x != ']')).drop 1) t2)
      | a :: p, t =>
          (match t with
           | [] => false
           | c :: t2 => (c == a) && globMatchAux fuel p t2)

/-- Does filename `s` match glob pattern `pat`. -/
def globMatch (pat s : String) : Bool :=
  globMatchAux (pat.length + s.length + 1) pat.data s.data

/-- Directory listing entry: file name and its modification time. -/
abbrev DirFile := String × Int

/-- Files of the previous launch directory matching one glob pattern, in
directory order (the order `glob.glob` yields). -/
def globMatches (files : List DirFile) (pat : String) : List DirFile :=
  files.filter (fun f => globMatch pat f.1)

/-- Python `sorted(matches, key=os.path.getmtime)`: stable ascending sort by
modification time. -/
def sortByMtime (l : List DirFile) : List DirFile :=
  List.insertionSort (fun a b => a.2 ≤ b.2) l

/-- recover_tasks.py lines 735-767, one `(glob_pattern, dest)` iteration of
the restart-file collection: with several matches take the last of the
mtime-sorted list; with exactly one take it; with none raise ValueError when
`fizzle_on_no_restart_file` is set, else skip the pattern (`none`). -/
def processRestartPattern (files : List DirFile) (pat dest : String)
    (fizzle_on_no_restart_file : Bool) :
    Except PyErr (Option (String × String)) :=
  let ms := globMatches files pat
  if 1 < ms.length then
    match (sortByMtime ms).getLast? with
    | some m => .ok (some (m.1, dest))
    | none => .error .indexError
  else if ms.length == 1 then
    match ms with
    | m :: _ => .ok (some (m.1, dest))
    | [] => .error .indexError
  else if fizzle_on_no_restart_file then .error .valueError
  else .ok none

/-- recover_tasks.py lines 662-698: classify the outcome of the previous job.  A
`_job_info` entry wins over `_fizzled_parents`; in both cases the last array
element is taken and its launch directory extracted; with neither key the
result is `none` (recover = False). -/
def classify_prev_job_info (fw_spec : Dct) :
    Except PyErr (Option (Value × Value)) :=
  if pyIn "_job_info" fw_spec then
    match pyGet fw_spec "_job_info" with
    | some (.list arr) =>
        match arr.getLast? with
        | some prev =>
            match prev with
            | .dict pd =>
                match pyGet pd "launch_dir" with
                | some path => .ok (some (prev, path))
                | none => .error .keyError
            | _ => .error .typeError
        | none => .error .indexError
    | _ => .error .typeError
  else if pyIn "_fizzled_parents" fw_spec then
    match pyGet fw_spec "_fizzled_parents" with
    | some (.list arr) =>
        match arr.getLast? with
        | some prev =>
            match prev with
            | .dict pd =>
                match pyGet pd "launches" with
                | some (.list launches) =>
                    match launches.getLast? with
                    | some (.dict ld) =>
                        match pyGet ld "launch_dir" with
                        | some path => .ok (some (prev, path))
                        | none => .error .keyError
                    | some _ => .error .typeError
                    | none => .error .indexError
                | some _ => .error .keyError
                | none => .error .keyError
            | _ => .error .typeError
        | none => .error .indexError
    | _ => .error .typeError
  else .ok none

/-- recover_tasks.py lines 792-799 (and the identical 843-850, 933-940): pick
the parent spec to superpose a fragment on.  The membership test
`"spec" in prev_job_info` raises TypeError when no previous-job record exists
(`prev_job_info` is None). -/
def superposeBaseSpec (prev_job_info : Option Value) :
    Except PyErr (Option Value) :=
  match prev_job_info with
  | none => .error .typeError
  | some (.dict pd) => .ok (if pyIn "spec" pd then pyGet pd "spec" else none)
  | some _ => .error .typeError

/-- Composition of outcome classification (lines 662-698) with the detour
base-spec selection (lines 790-802): when a detour fragment is configured
(`detour_wf_dict` is a dict) and superposition is requested, the parent spec
is looked up via `superposeBaseSpec`; the same shape serves the addition
fragment (lines 931-940). -/
def detourBaseSpecPhase (fw_spec : Dct) (detour_wf_dict : Value)
    (superpose_detour_on_parent_fw_spec : Bool) :
    Except PyErr (Option Value) := do
  let classification ← classify_prev_job_info fw_spec
  if isDict detour_wf_dict then
    if superpose_detour_on_parent_fw_spec then
      superposeBaseSpec (classification.map (fun pr => pr.1))
    else .ok none
  else .ok none

/-- recover_tasks.py lines 582-592 plus 872-873: the spec handed to the
repeated recovery node, `dict_merge({}, fw_spec, exclusions={k: True ...})`. -/
def recover_fw_spec_of (fuel : Nat) (fw_spec : Dct)
    (fw_spec_to_exclude : List String) : Except PyErr Dct :=
  dict_merge fuel [] fw_spec true
    (.dict (fw_spec_to_exclude.map (fun k => (k, .bool true)))) (.dict [])

/-- Default `fw_spec_to_exclude` of recover_tasks.py lines 582-588. -/
def defaultFwSpecToExclude : List String :=
  ["_job_info", "_fw_env", "_files_prev", "_fizzled_parents"]

/-- Keys of an association list are pairwise distinct (every Python dict
satisfies this). -/
def KeysNodup (d : Dct) : Prop := (d.map Prod.fst).Nodup

/-- Value whose dicts, recursively, have pairwise-distinct keys: the invariant
every Python-representable value satisfies. -/
inductive DeepNodup : Value → Prop where
  | bool (b : Bool) : DeepNodup (.bool b)
  | int (n : Int) : DeepNodup (.int n)
  | str (s : String) : DeepNodup (.str s)
  | list (l : List Value) : DeepNodup (.list l)
  | dict (d : Dct) : KeysNodup d → (∀ p ∈ d, DeepNodup p.2) →
      DeepNodup (.dict d)

/-- Dict-nesting depth bound on a value: `VBound n v` bounds by `n` the
number of dict levels below `v` (lists are never descended by the modelled
recursions). -/
inductive VBound : Nat → Value → Prop where
  | bool (n : Nat) (b : Bool) : VBound n (.bool b)
  | int (n : Nat) (m : Int) : VBound n (.int m)
  | str (n : Nat) (s : String) : VBound n (.str s)
  | list (n : Nat) (l : List Value) : VBound n (.list l)
  | dict (n : Nat) (d : Dct) : (∀ p ∈ d, VBound n p.2) →
      VBound (n + 1) (.dict d)

/-- Depth bound for a dict body: every value is bounded by `n`. -/
def DBound (n : Nat) (d : Dct) : Prop := ∀ p ∈ d, VBound n p.2

theorem pyIn_of_mem (d : Dct) (p : String × Value) (hp : p ∈ d) :
    pyIn p.1 d = true := by
  simp only [pyIn, List.any_eq_true]
  exact ⟨p, hp, by simp⟩

theorem pyIn_of_pyGet (d : Dct) (k : String) (v : Value)
    (h : pyGet d k = some v) : pyIn k d = true := by
  induction d with
  | nil => simp [pyGet] at h
  | cons q rest ih =>
      by_cases hq : q.1 == k
      · simp [pyIn, hq]
      · have h' : pyGet rest k = some v := by
          simpa [pyGet, List.find?, hq] using h
        simpa [pyIn, hq] using ih h'

theorem isEmpty_false_of_pyGet (d : Dct) (k : String) (v : Value)
    (h : pyGet d k = some v) : d.isEmpty = false := by
  cases d with
  | nil => simp [pyGet] at h
  | cons p rest => rfl

theorem pyGet_map_set_self (d : Dct) (k : String) (v : Value)
    (h : pyIn k d = true) :
    pyGet (d.map (fun p => if p.1 == k then (k, v) else p)) k = some v := by
  induction d with
  | nil => simp [pyIn] at h
  | cons p rest ih =>
      by_cases hp : p.1 == k
      · simp [pyGet, List.find?, hp]
      · have hr : pyIn k rest = true := by
          simp only [pyIn, List.any_cons, hp, Bool.false_or] at h
          exact h
        simpa [pyGet, List.find?, hp] using ih hr

theorem pyGet_append_single (d : Dct) (k : String) (v : Value)
    (h : pyIn k d = false) : pyGet (d ++ [(k, v)]) k = some v := by
  induction d with
  | nil => simp [pyGet, List.find?]
  | cons p rest ih =>
      simp only [pyIn, List.any_cons, Bool.or_eq_false_iff] at h
      simpa [pyGet, List.find?, h.1] using ih (by simp [pyIn, h.2])

theorem pyGet_pySet_self (d : Dct) (k : String) (v : Value) :
    pyGet (pySet d k v) k = some v := by
  by_cases h : pyIn k d
  · simpa [pySet, h] using pyGet_map_set_self d k v h
  · have h' : pyIn k d = false := by simpa using h
    simpa [pySet, h'] using pyGet_append_single d k v h'

theorem pyGet_map_set_ne (d : Dct) (k k2 : String) (v : Value)
    (hne : k2 ≠ k) :
    pyGet (d.map (fun p => if p.1 == k2 then (k2, v) else p)) k = pyGet d k := by
  induction d with
  | nil => rfl
  | cons p rest ih =>
      by_cases hp : p.1 == k2
      · have hk2 : p.1 = k2 := by simpa using hp
        have h1 : (k2 == k) = false := by simpa using hne
        have h2 : (p.1 == k) = false := by simp [hk2, h1]
        simpa [pyGet, List.find?, hp, h1, h2] using ih
      · by_cases hk : p.1 == k
        · simp [pyGet, List.find?, hp, hk]
        · simpa [pyGet, List.find?, hp, hk] using ih

theorem pyGet_append_ne (d : Dct) (k k2 : String) (v : Value)
    (hne : k2 ≠ k) : pyGet (d ++ [(k2, v)]) k = pyGet d k := by
  induction d with
  | nil => simp [pyGet, List.find?, show (k2 == k) = false by simpa using hne]
  | cons p rest ih =>
      by_cases hk : p.1 == k
      · simp [pyGet, List.find?, hk]
      · simpa [pyGet, List.find?, hk] using ih

theorem pyGet_pySet_ne (d : Dct) (k k2 : String) (v : Value)
    (hne : k2 ≠ k) : pyGet (pySet d k2 v) k = pyGet d k := by
  by_cases h : pyIn k2 d
  · simpa [pySet, h] using pyGet_map_set_ne d k k2 v hne
  · have h' : pyIn k2 d = false := by simpa using h
    simpa [pySet, h'] using pyGet_append_ne d k k2 v hne

theorem pyGet_of_mem_nodup (d : Dct) (p : String × Value)
    (hnd : KeysNodup d) (hp : p ∈ d) : pyGet d p.1 = some p.2 := by
  induction d with
  | nil => cases hp
  | cons q rest ih =>
      rcases List.mem_cons.mp hp with hq | hq
      · subst hq
        simp [pyGet, List.find?]
      · have hnotin : q.1 ∉ rest.map Prod.fst := by
          simpa [KeysNodup] using (List.nodup_cons.mp hnd).1
        have hne : (q.1 == p.1) = false := by
          apply beq_eq_false_iff_ne.mpr
          intro hc
          exact hnotin (hc ▸ List.mem_map_of_mem Prod.fst hq)
        have hrest : KeysNodup rest := (List.nodup_cons.mp hnd).2
        simpa [pyGet, List.find?, hne] using ih hrest hq

theorem pyIn_false_of_not_mem_keys (d : Dct) (k : String)
    (h : k ∉ d.map Prod.fst) : pyIn k d = false := by
  simp only [pyIn, List.any_eq_true, not_exists]
  by_contra hc
  simp only [Bool.not_eq_false, List.any_eq_true] at hc
  obtain ⟨p, hp, hpk⟩ := hc
  exact absurd (List.mem_map_of_mem Prod.fst hp)
    (by simpa [show p.1 = k by simpa using hpk] using h)

theorem map_set_noop (d : Dct) (k : String) (v : Value)
    (h : pyIn k d = false) :
    d.map (fun p => if p.1 == k then (k, v) else p) = d := by
  induction d with
  | nil => rfl
  | cons p rest ih =>
      simp only [pyIn, List.any_cons, Bool.or_eq_false_iff] at h
      rw [List.map_cons, if_neg (by simp [h.1]), ih (by simp [pyIn, h.2])]

theorem pySet_of_mem_eq (d : Dct) (k : String) (v : Value)
    (hnd : KeysNodup d) (h : pyGet d k = some v) : pySet d k v = d := by
  have hin : pyIn k d = true := pyIn_of_pyGet d k v h
  simp only [pySet, hin, if_true]
  induction d with
  | nil => simp [pyGet] at h
  | cons p rest ih =>
      by_cases hp : p.1 == k
      · have hk : p.1 = k := by simpa using hp
        have hv : v = p.2 := by
          have h2 := h
          simp [pyGet, List.find?, hp] at h2
          exact h2.symm
        have hnotin : k ∉ rest.map Prod.fst := by
          have h3 := (List.nodup_cons.mp hnd).1
          simpa [KeysNodup, hk] using h3
        have hrest : rest.map (fun q => if q.1 == k then (k, v) else q) = rest :=
          map_set_noop rest k v (pyIn_false_of_not_mem_keys rest k hnotin)
        have hpeq : (k, v) = p := by
          cases p
          simp only [Prod.mk.injEq]
          exact ⟨hk.symm, by simpa using hv⟩
        rw [List.map_cons, if_pos hp, hrest, hpeq]
      · have h' : pyGet rest k = some v := by
          simpa [pyGet, List.find?, hp] using h
        have hrest : KeysNodup rest := (List.nodup_cons.mp hnd).2
        have hin' : pyIn k rest = true := pyIn_of_pyGet rest k v h'
        rw [List.map_cons, if_neg hp, ih hrest h' hin']

theorem splitArrowAux_ne_nil (cs : List Char) :
    ∀ acc, splitArrowAux cs acc ≠ [] := by
  induction cs with
  | nil => intro acc; simp [splitArrowAux]
  | cons c rest ih =>
      intro acc
      cases rest with
      | nil => simp [splitArrowAux]
      | cons c2 rest2 =>
          rw [splitArrowAux]
          by_cases hc : c = '-' && c2 = '>'
          · simp [hc]
          · simpa [hc] using ih (c :: acc)

theorem splitArrow_ne_nil (key : String) : splitArrow key ≠ [] :=
  splitArrowAux_ne_nil key.data []

theorem setNested_getNested (toks : List String) :
    ∀ (d d2 : Dct) (val : Value), toks ≠ [] →
      setNestedAux d toks val = .ok d2 →
      getNestedAux (.dict d2) toks = .ok val := by
  induction toks with
  | nil => intro d d2 val hne; exact absurd rfl hne
  | cons k rest ih =>
      intro d d2 val _ hset
      cases rest with
      | nil =>
          simp only [setNestedAux, Except.ok.injEq] at hset
          subst hset
          simp [getNestedAux, pyGet_pySet_self]
      | cons k2 rest2 =>
          rw [setNestedAux] at hset
          cases hg : pyGet d k with
          | none =>
              simp only [hg] at hset
              cases hsub : setNestedAux [] (k2 :: rest2) val with
              | error e =>
                  simp only [hsub, Bind.bind, Except.bind] at hset
                  exact Except.noConfusion hset
              | ok sub =>
                  simp only [hsub, Bind.bind, Except.bind,
                    Except.ok.injEq] at hset
                  subst hset
                  rw [getNestedAux, pyGet_pySet_self]
                  exact ih [] sub val (by simp) hsub
          | some v0 =>
              cases v0 with
              | dict dk =>
                  simp only [hg] at hset
                  cases hsub : setNestedAux dk (k2 :: rest2) val with
                  | error e =>
                      simp only [hsub, Bind.bind, Except.bind] at hset
                      exact Except.noConfusion hset
                  | ok sub =>
                      simp only [hsub, Bind.bind, Except.bind,
                        Except.ok.injEq] at hset
                      subst hset
                      rw [getNestedAux, pyGet_pySet_self]
                      exact ih dk sub val (by simp) hsub
              | bool b =>
                  simp only [hg] at hset
                  exact Except.noConfusion hset
              | int n =>
                  simp only [hg] at hset
                  exact Except.noConfusion hset
              | str s =>
                  simp only [hg] at hset
                  exact Except.noConfusion hset
              | list l =>
                  simp only [hg] at hset
                  exact Except.noConfusion hset

theorem set_get_roundtrip (d d2 : Dct) (key : String) (val : Value)
    (h : set_nested_dict_value d key val = .ok d2) :
    get_nested_dict_value (.dict d2) key = .ok val :=
  setNested_getNested (splitArrow key) d d2 val (splitArrow_ne_nil key) h

theorem injectRestartCount_get (counter : String) (count : Int)
    (fws : List FW) :
    ∀ fws2, injectRestartCount counter count fws = .ok fws2 →
      ∀ fw2 ∈ fws2,
        get_nested_dict_value (.dict fw2.spec) counter = .ok (.int count) := by
  induction fws with
  | nil =>
      intro fws2 h fw2 hmem
      simp only [injectRestartCount, Except.ok.injEq] at h
      subst h
      cases hmem
  | cons fw rest ih =>
      intro fws2 h fw2 hmem
      rw [injectRestartCount] at h
      cases hs : set_nested_dict_value fw.spec counter (.int count) with
      | error e =>
          simp only [hs, Bind.bind, Except.bind] at h
          exact Except.noConfusion h
      | ok s =>
          simp only [hs, Bind.bind, Except.bind] at h
          cases hr : injectRestartCount counter count rest with
          | error e =>
              simp only [hr, Bind.bind, Except.bind] at h
              exact Except.noConfusion h
          | ok others =>
              simp only [hr, Bind.bind, Except.bind, Except.ok.injEq] at h
              subst h
              rcases List.mem_cons.mp hmem with h2 | h2
              · subst h2
                exact set_get_roundtrip fw.spec s counter (.int count) hs
              · exact ih others hr fw2 h2

theorem deriveRestartCount_found (prev own : Dct) (counter : String)
    (sv : Value) (c : Int) (hs : pyGet prev "spec" = some sv)
    (hc : get_nested_dict_value sv counter = .ok (.int c)) :
    deriveRestartCount prev own counter = .ok (c + 1) := by
  have hne : prev.isEmpty = false := isEmpty_false_of_pyGet prev "spec" sv hs
  have hin : pyIn "spec" prev = true := pyIn_of_pyGet prev "spec" sv hs
  simp [deriveRestartCount, hne, hin, hs, hc, pyToInt, Bind.bind, Except.bind,
    pure, Except.pure]

theorem getLast?_mem_of_eq {α : Type} (l : List α) (m : α)
    (h : l.getLast? = some m) : m ∈ l := by
  induction l with
  | nil => simp at h
  | cons a t ih =>
      cases t with
      | nil =>
          simp only [List.getLast?_singleton, Option.some.injEq] at h
          subst h
          exact List.mem_singleton_self a
      | cons b t2 =>
          rw [List.getLast?_cons_cons] at h
          exact List.mem_cons_of_mem a (ih h)

theorem sorted_getLast?_le (l : List DirFile) (m : DirFile)
    (hs : List.Sorted (fun a b : DirFile => a.2 ≤ b.2) l)
    (hl : l.getLast? = some m) : ∀ x ∈ l, x.2 ≤ m.2 := by
  induction l with
  | nil => simp at hl
  | cons a t ih =>
      cases t with
      | nil =>
          simp only [List.getLast?_singleton, Option.some.injEq] at hl
          subst hl
          intro x hx
          rw [List.mem_singleton.mp hx]
      | cons b t2 =>
          rw [List.getLast?_cons_cons] at hl
          obtain ⟨ha, hs2⟩ := List.sorted_cons.mp hs
          have hrest := ih hs2 hl
          intro x hx
          rcases List.mem_cons.mp hx with hxa | hxm
          · subst hxa
            exact ha m (getLast?_mem_of_eq (b :: t2) m hl)
          · exact hrest x hxm

theorem sortByMtime_sorted (l : List DirFile) :
    List.Sorted (fun a b : DirFile => a.2 ≤ b.2) (sortByMtime l) :=
  @List.sorted_insertionSort DirFile (fun a b => a.2 ≤ b.2)
    (fun a b => inferInstanceAs (Decidable (a.2 ≤ b.2)))
    ⟨fun a b => Int.le_total a.2 b.2⟩
    ⟨fun _ _ _ h1 h2 => le_trans h1 h2⟩ l

theorem sortByMtime_perm (l : List DirFile) : (sortByMtime l).Perm l :=
  List.perm_insertionSort _ l

theorem plain_step_preserves
    (recMerge : Dct → Dct → Value → Value → Except PyErr Dct)
    (k k2 : String) (v : Value) (rest : List (String × Value)) (dct r : Dct)
    (ih : ∀ (dct2 r2 : Dct),
      dict_mergeItems recMerge dct2 rest [] (.dict [(k, .bool true)])
        = .ok r2 → pyGet r2 k = pyGet dct2 k)
    (h : (do
      let inM ← pyContains (.dict [(k, .bool true)]) k2
      if inM = false then
        dict_mergeItems recMerge (pySet dct k2 v) rest []
          (.dict [(k, .bool true)])
      else
        dict_mergeItems recMerge dct rest [] (.dict [(k, .bool true)]))
      = .ok r) :
    pyGet r k = pyGet dct k := by
  have hcont : pyContains (.dict [(k, .bool true)]) k2 = .ok (k == k2) := by
    simp [pyContains, pyIn]
  rw [hcont] at h
  by_cases hk : k = k2
  · have hbeq : (k == k2) = true := by simpa using hk
    simp only [hbeq, Bind.bind, Except.bind, Bool.true_eq_false,
      if_false] at h
    exact ih dct r h
  · have hbeq : (k == k2) = false := by simpa using hk
    have hne : k2 ≠ k := fun hc => hk hc.symm
    simp only [hbeq, Bind.bind, Except.bind, if_true] at h
    rw [ih (pySet dct k2 v) r h, pyGet_pySet_ne dct k k2 v hne]

theorem nested_step_preserves
    (recMerge : Dct → Dct → Value → Value → Except PyErr Dct)
    (k k2 : String) (lower : Value) (dk dv : Dct)
    (rest : List (String × Value)) (dct r : Dct)
    (ih : ∀ (dct2 r2 : Dct),
      dict_mergeItems recMerge dct2 rest [] (.dict [(k, .bool true)])
        = .ok r2 → pyGet r2 k = pyGet dct2 k)
    (h : (do
      let inM ← pyContains (.dict [(k, .bool true)]) k2
      if inM = false then do
        let sub ← recMerge dk dv lower (.dict [])
        dict_mergeItems recMerge (pySet dct k2 (.dict sub)) rest []
          (.dict [(k, .bool true)])
      else
        match mexclLookup (.dict [(k, .bool true)]) k2 with
        | some (.bool true) =>
            dict_mergeItems recMerge dct rest [] (.dict [(k, .bool true)])
        | some mv => do
            let sub ← recMerge dk dv lower mv
            dict_mergeItems recMerge (pySet dct k2 (.dict sub)) rest []
              (.dict [(k, .bool true)])
        | none => .error .keyError)
      = .ok r) :
    pyGet r k = pyGet dct k := by
  have hcont : pyContains (.dict [(k, .bool true)]) k2 = .ok (k == k2) := by
    simp [pyContains, pyIn]
  rw [hcont] at h
  by_cases hk : k = k2
  · have hbeq : (k == k2) = true := by simpa using hk
    have hlook : mexclLookup (.dict [(k, .bool true)]) k2
        = some (.bool true) := by
      subst hk
      simp [mexclLookup, pyGet, List.find?]
    simp only [hbeq, hlook, Bind.bind, Except.bind, Bool.true_eq_false,
      if_false] at h
    exact ih dct r h
  · have hbeq : (k == k2) = false := by simpa using hk
    have hne : k2 ≠ k := fun hc => hk hc.symm
    simp only [hbeq, Bind.bind, Except.bind, if_true] at h
    cases hrec : recMerge dk dv lower (.dict []) with
    | error e =>
        rw [hrec] at h
        exact Except.noConfusion h
    | ok sub =>
        rw [hrec] at h
        rw [ih (pySet dct k2 (.dict sub)) r h,
          pyGet_pySet_ne dct k k2 (.dict sub) hne]

theorem mergeItems_mexcl_true_preserves
    (recMerge : Dct → Dct → Value → Value → Except PyErr Dct) (k : String) :
    ∀ (items : List (String × Value)) (dct r : Dct),
      dict_mergeItems recMerge dct items [] (.dict [(k, .bool true)]) = .ok r →
      pyGet r k = pyGet dct k := by
  intro items
  induction items with
  | nil =>
      intro dct r h
      simp only [dict_mergeItems, Except.ok.injEq] at h
      subst h
      rfl
  | cons p rest ih =>
      intro dct r h
      obtain ⟨k2, v⟩ := p
      rw [dict_mergeItems.eq_def] at h
      cases hg : pyGet dct k2 with
      | none =>
          simp only [hg] at h
          exact plain_step_preserves recMerge k k2 v rest dct r ih h
      | some v0 =>
          cases v0 with
          | dict dk =>
              cases v with
              | dict dv =>
                  simp only [hg] at h
                  exact nested_step_preserves recMerge k k2
                    (if pyIn k2 [] = true then pyGetD [] k2 else .dict [])
                    dk dv rest dct r ih h
              | bool b =>
                  simp only [hg] at h
                  exact plain_step_preserves recMerge k k2 (.bool b) rest dct r ih h
              | int n =>
                  simp only [hg] at h
                  exact plain_step_preserves recMerge k k2 (.int n) rest dct r ih h
              | str s =>
                  simp only [hg] at h
                  exact plain_step_preserves recMerge k k2 (.str s) rest dct r ih h
              | list l =>
                  simp only [hg] at h
                  exact plain_step_preserves recMerge k k2 (.list l) rest dct r ih h
          | bool b =>
              simp only [hg] at h
              exact plain_step_preserves recMerge k k2 v rest dct r ih h
          | int n =>
              simp only [hg] at h
              exact plain_step_preserves recMerge k k2 v rest dct r ih h
          | str s =>
              simp only [hg] at h
              exact plain_step_preserves recMerge k k2 v rest dct r ih h
          | list l =>
              simp only [hg] at h
              exact plain_step_preserves recMerge k k2 v rest dct r ih h

theorem foldl_addempty_noop (l : List (String × Value)) :
    ∀ (m : Dct), (∀ p ∈ l, pyIn p.1 m = true) →
      l.foldl (fun m p =>
        if isDict p.2 && !(pyIn p.1 m) then pySet m p.1 (.dict []) else m) m
      = m := by
  induction l with
  | nil => intro m _; rfl
  | cons p rest ih =>
      intro m hmem
      have hp : pyIn p.1 m = true := hmem p (List.mem_cons_self p rest)
      rw [List.foldl_cons]
      rw [if_neg (by simp [hp])]
      exact ih m (fun q hq => hmem q (List.mem_cons_of_mem p hq))

theorem mergeItems_self (n : Nat) :
    ∀ (items : List (String × Value)) (dct : Dct), KeysNodup dct →
      (∀ p ∈ items, pyGet dct p.1 = some p.2) →
      (∀ p ∈ items, ∀ dv : Dct, p.2 = .dict dv →
        dict_merge n dv dv true (.dict []) (.dict []) = .ok dv) →
      dict_mergeItems (fun d m e me => dict_merge n d m true e me)
        dct items [] (.dict []) = .ok dct := by
  intro items
  induction items with
  | nil => intro dct _ _ _; rfl
  | cons p rest ih =>
      intro dct hnd hget hsub
      obtain ⟨k, v⟩ := p
      have hg : pyGet dct k = some v := hget (k, v) (List.mem_cons_self _ _)
      rw [dict_mergeItems.eq_def]
      have hrest_get : ∀ q ∈ rest, pyGet dct q.1 = some q.2 :=
        fun q hq => hget q (List.mem_cons_of_mem _ hq)
      have hrest_sub : ∀ q ∈ rest, ∀ dv : Dct, q.2 = .dict dv →
          dict_merge n dv dv true (.dict []) (.dict []) = .ok dv :=
        fun q hq => hsub q (List.mem_cons_of_mem _ hq)
      cases v with
      | dict dv =>
          have hmerge : dict_merge n dv dv true (.dict []) (.dict [])
              = .ok dv :=
            hsub (k, .dict dv) (List.mem_cons_self _ _) dv rfl
          have hset : pySet dct k (.dict dv) = dct :=
            pySet_of_mem_eq dct k (.dict dv) hnd hg
          simp only [hg, pyContains, pyIn, List.any_nil, Bind.bind,
            Except.bind, Bool.false_eq_true, eq_self_iff_true, if_true,
            if_false, hmerge, hset]
          exact ih dct hnd hrest_get hrest_sub
      | bool b =>
          have hset : pySet dct k (.bool b) = dct :=
            pySet_of_mem_eq dct k (.bool b) hnd hg
          simp only [hg, pyContains, pyIn, List.any_nil, Bind.bind,
            Except.bind, Bool.false_eq_true, eq_self_iff_true, if_true,
            if_false, hset]
          exact ih dct hnd hrest_get hrest_sub
      | int m =>
          have hset : pySet dct k (.int m) = dct :=
            pySet_of_mem_eq dct k (.int m) hnd hg
          simp only [hg, pyContains, pyIn, List.any_nil, Bind.bind,
            Except.bind, Bool.false_eq_true, eq_self_iff_true, if_true,
            if_false, hset]
          exact ih dct hnd hrest_get hrest_sub
      | str s =>
          have hset : pySet dct k (.str s) = dct :=
            pySet_of_mem_eq dct k (.str s) hnd hg
          simp only [hg, pyContains, pyIn, List.any_nil, Bind.bind,
            Except.bind, Bool.false_eq_true, eq_self_iff_true, if_true,
            if_false, hset]
          exact ih dct hnd hrest_get hrest_sub
      | list l =>
          have hset : pySet dct k (.list l) = dct :=
            pySet_of_mem_eq dct k (.list l) hnd hg
          simp only [hg, pyContains, pyIn, List.any_nil, Bind.bind,
            Except.bind, Bool.false_eq_true, eq_self_iff_true, if_true,
            if_false, hset]
          exact ih dct hnd hrest_get hrest_sub

/-- Claim C1: for a recovery invocation with recover set, the restart
fragment is built exactly when the derived (incremented) restart count is
strictly below `max_restarts + 1`; when built, that count is written at the
restart-counter path into the spec of every node; and when the spec of the previous job
holds count `c` at the counter path, the count of this attempt is `c + 1`, so
successive attempts increase the counter by exactly 1. -/
theorem restart_count_policy (prev own : Dct) (counter : String) (maxr : Int)
    (fws : List FW) (res : Option (List FW) × Int)
    (h : restartBuildDecision prev own counter maxr fws = .ok res) :
    (res.1.isSome = true ↔ res.2 < maxr + 1) ∧
    (∀ fws2, res.1 = some fws2 → ∀ fw2 ∈ fws2,
      get_nested_dict_value (.dict fw2.spec) counter = .ok (.int res.2)) ∧
    (∀ sv c, pyGet prev "spec" = some sv →
      get_nested_dict_value sv counter = .ok (.int c) → res.2 = c + 1) := by
  rw [restartBuildDecision] at h
  cases hd : deriveRestartCount prev own counter with
  | error e =>
      simp only [hd, Bind.bind, Except.bind] at h
      exact Except.noConfusion h
  | ok count =>
      simp only [hd, Bind.bind, Except.bind] at h
      by_cases hc : count < maxr + 1
      · rw [if_pos hc] at h
        cases hi : injectRestartCount counter count fws with
        | error e =>
            simp only [hi, Bind.bind, Except.bind] at h
            exact Except.noConfusion h
        | ok fws2 =>
            simp only [hi, Bind.bind, Except.bind, Except.ok.injEq] at h
            subst h
            refine ⟨by simp [hc], ?_, ?_⟩
            · intro fws3 heq fw2 hmem
              simp only [Option.some.injEq] at heq
              subst heq
              exact injectRestartCount_get counter count fws fws2 hi fw2 hmem
            · intro sv c hsv hcnt
              have h2 := deriveRestartCount_found prev own counter sv c hsv hcnt
              rw [hd] at h2
              simpa using h2
      · rw [if_neg hc] at h
        simp only [Except.ok.injEq] at h
        subst h
        refine ⟨by simp [hc], ?_, ?_⟩
        · intro fws3 heq
          exact absurd heq (by simp)
        · intro sv c hsv hcnt
          have h2 := deriveRestartCount_found prev own counter sv c hsv hcnt
          rw [hd] at h2
          simpa using h2

/-- Witness for C1 at the scenario given in the spec: a fizzled parent carrying
restart_count 2 with max_restarts 5 yields a built fragment stamped with 3. -/
theorem restart_count_policy_witness :
    (((some [⟨-1, "restart fw", [("restart_count", Value.int 3)]⟩] :
        Option (List FW)).isSome = true) ↔ (3 : Int) < 5 + 1) ∧
    (∀ fws2, (some [(⟨-1, "restart fw", [("restart_count", Value.int 3)]⟩ :
        FW)] : Option (List FW)) = some fws2 → ∀ fw2 ∈ fws2,
      get_nested_dict_value (.dict fw2.spec) "restart_count"
        = .ok (.int 3)) ∧
    (∀ sv c, pyGet [("spec", Value.dict [("restart_count", Value.int 2)])]
        "spec" = some sv →
      get_nested_dict_value sv "restart_count" = .ok (.int c) →
      (3 : Int) = c + 1) :=
  restart_count_policy [("spec", .dict [("restart_count", .int 2)])] []
    "restart_count" 5 [⟨-1, "restart fw", []⟩]
    (some [⟨-1, "restart fw", [("restart_count", .int 3)]⟩], 3) rfl

/-- Claim C2: the spec of the repeated-recovery node is supposed to be the current
spec minus the keys of `fw_spec_to_exclude`, but
`dict_merge({}, fw_spec, exclusions=...)` never strips them: with the default
exclusion list, a spec carrying `_job_info` is returned unchanged, excluded
key included. -/
theorem recover_fw_spec_retains_excluded_keys :
    recover_fw_spec_of 3
      [("_job_info", .list [.dict [("launch_dir", .str "/prev/launch")]]),
       ("foo", .int 1)] defaultFwSpecToExclude
      = .ok
      [("_job_info", .list [.dict [("launch_dir", .str "/prev/launch")]]),
       ("foo", .int 1)] := rfl

/-- Claim C3: a key marked True in the `exclusions` map is supposed to be
deleted from the base dict, but line 102 compares the VALUE held by the base against
True instead of the exclusion marker: base `a: 1` with exclusion `a: True`
and empty overlay keeps `a`. -/
theorem dict_merge_exclusions_do_not_delete :
    dict_merge 2 [("a", .int 1)] [] true (.dict [("a", .bool true)])
      (.dict []) = .ok [("a", .int 1)] := rfl

/-- Claim C4 counterexample: splicing a one-node restart fragment onto a
one-node detour fragment (line 901 passes an empty parent-id list to
append_wf) yields a combined fragment in which the detour leaf -1 has no
children at all, hence no edge to the restart root -2. -/
theorem splice_combine_no_edge :
    WF.leaf_fw_ids ⟨[⟨-1, "detour leaf", []⟩], [(-1, [])]⟩ = [-1] ∧
    WF.root_fw_ids ⟨[⟨-2, "restart root", []⟩], [(-2, [])]⟩ = [-2] ∧
    spliceCombine ⟨[⟨-2, "restart root", []⟩], [(-2, [])]⟩
        (some ⟨[⟨-1, "detour leaf", []⟩], [(-1, [])]⟩)
      = .ok ⟨[⟨-1, "detour leaf", []⟩, ⟨-2, "restart root", []⟩],
             [(-1, []), (-2, [])]⟩ ∧
    WF.linksOf ⟨[⟨-1, "detour leaf", []⟩, ⟨-2, "restart root", []⟩],
        [(-1, []), (-2, [])]⟩ (-1) = some [] :=
  ⟨rfl, rfl, rfl, rfl⟩

/-- Claim C4 as amended: with both fragments present the combination is the
node-disjoint union of the two fragments — all node identifiers and all
existing edges unchanged, and no edge added between detour and restart (the
recovery node appended afterwards is what depends on the leaves of that union);
with only the restart fragment present it becomes the combined fragment
unchanged. -/
theorem splice_combine_disjoint_union (d r : WF)
    (h : (r.fws.any (fun nf => d.fws.any (fun f => f.fw_id == nf.fw_id)))
      = false) :
    spliceCombine r (some d) = .ok ⟨d.fws ++ r.fws, d.links ++ r.links⟩ ∧
    spliceCombine r none = .ok r := by
  refine ⟨?_, rfl⟩
  simp only [spliceCombine, append_wf, h, Bool.false_eq_true, if_false]
  have hmap : ∀ p : Int × List Int,
      (if ([] : List Int).contains p.1 then (p.1, p.2 ++ r.root_fw_ids)
       else p) = p := fun p => rfl
  simp only [hmap, List.map_id']

/-- Witness for the amended C4 on the fragments used in the counterexample. -/
theorem splice_combine_disjoint_union_witness :
    spliceCombine ⟨[⟨-2, "restart root", []⟩], [(-2, [])]⟩
        (some ⟨[⟨-1, "detour leaf", []⟩], [(-1, [])]⟩)
      = .ok ⟨[(⟨-1, "detour leaf", []⟩ : FW)] ++ [⟨-2, "restart root", []⟩],
             [((-1 : Int), ([] : List Int))] ++ [(-2, [])]⟩ ∧
    spliceCombine ⟨[⟨-2, "restart root", []⟩], [(-2, [])]⟩ none
      = .ok ⟨[⟨-2, "restart root", []⟩], [(-2, [])]⟩ :=
  splice_combine_disjoint_union ⟨[⟨-1, "detour leaf", []⟩], [(-1, [])]⟩
    ⟨[⟨-2, "restart root", []⟩], [(-2, [])]⟩ rfl

/-- Claim C5: with `propagate` set and a non-empty `mod_spec`, the first leaf
visit of `recursive_mod_spec` recurses on the bare integer node id (line 197)
instead of the child list of the node, so iterating it raises TypeError rather
than applying each op once per reachable node. -/
theorem apply_mod_spec_mod_propagate_type_error :
    apply_mod_spec 9 ⟨[⟨1, "fw1", []⟩], [(1, [])]⟩
      ⟨[], [[("_set", .dict [("x", .int 1)])]], true⟩ = .error .typeError :=
  rfl

/-- Claim C6: the fallback lookup of the restart counter reads the previous
spec of the previous job a second time and never consults the own fw_spec of the current job:
with a parent spec lacking the counter, the derived count is 0 for every own
fw_spec, including one that carries restart_count 7. -/
theorem restart_count_fallback_ignores_own_spec (own : Dct) :
    deriveRestartCount [("spec", .dict [])] own "restart_count" = .ok 0 := rfl

theorem getLast?_of_ne_nil {α : Type} (l : List α) (h : l ≠ []) :
    ∃ m, l.getLast? = some m := by
  cases l with
  | nil => exact absurd rfl h
  | cons a t =>
      exact ⟨(a :: t).getLast (by simp), List.getLast?_eq_getLast _ (by simp)⟩

/-- Claim C7: per restart glob pattern, whenever at least one file matches,
the selected file is a match of maximal modification time (with two or more
matches the last of the mtime-sorted list, i.e. a most recent one); with no
match the task raises exactly when `fizzle_on_no_restart_file` is set and
otherwise skips the pattern silently. -/
theorem restart_pattern_selection (files : List DirFile) (pat dest : String)
    (fizzle : Bool) :
    (globMatches files pat ≠ [] →
      ∃ m, m ∈ globMatches files pat ∧
        (∀ g ∈ globMatches files pat, g.2 ≤ m.2) ∧
        processRestartPattern files pat dest fizzle = .ok (some (m.1, dest))) ∧
    (globMatches files pat = [] →
      processRestartPattern files pat dest fizzle
        = if fizzle then .error .valueError else .ok none) := by
  constructor
  · intro hne
    by_cases h1 : 1 < (globMatches files pat).length
    · have hsne : sortByMtime (globMatches files pat) ≠ [] := by
        intro hcon
        have hlen := (sortByMtime_perm (globMatches files pat)).length_eq
        rw [hcon] at hlen
        exact hne (List.length_eq_zero.mp hlen.symm)
      obtain ⟨m, hlast⟩ := getLast?_of_ne_nil _ hsne
      refine ⟨m, ?_, ?_, ?_⟩
      · exact (sortByMtime_perm _).mem_iff.mp (getLast?_mem_of_eq _ m hlast)
      · intro g hg
        exact sorted_getLast?_le _ m (sortByMtime_sorted _) hlast g
          ((sortByMtime_perm _).mem_iff.mpr hg)
      · simp only [processRestartPattern]
        rw [if_pos h1, hlast]
    · have hlen1 : (globMatches files pat).length = 1 := by
        have hpos : 0 < (globMatches files pat).length :=
          List.length_pos.mpr hne
        omega
      obtain ⟨m, hm⟩ := List.length_eq_one.mp hlen1
      refine ⟨m, ?_, ?_, ?_⟩
      · rw [hm]
        exact List.mem_singleton_self m
      · intro g hg
        rw [hm] at hg
        rw [List.mem_singleton.mp hg]
      · simp [processRestartPattern, hm]
  · intro he
    simp [processRestartPattern, he]

/-- Witness for C7 at the scenario given in the spec: of `job.restart3` (mtime 100) and
`job.restart7` (mtime 200), both matching the default pattern, a most recent
match is selected. -/
theorem restart_pattern_selection_witness :
    ∃ m, m ∈ globMatches
        [("job.restart3", 100), ("job.restart7", 200), ("log.lammps", 300)]
        "*.restart[0-9]" ∧
      (∀ g ∈ globMatches
        [("job.restart3", 100), ("job.restart7", 200), ("log.lammps", 300)]
        "*.restart[0-9]", g.2 ≤ m.2) ∧
      processRestartPattern
        [("job.restart3", 100), ("job.restart7", 200), ("log.lammps", 300)]
        "*.restart[0-9]" "." true = .ok (some (m.1, ".")) :=
  (restart_pattern_selection
    [("job.restart3", 100), ("job.restart7", 200), ("log.lammps", 300)]
    "*.restart[0-9]" "." true).1 (by decide)

/-- Claim C8: merging overlay B onto base A with merge-exclusion k mapped to
True leaves the entry of the result at k exactly the entry of A at k (absent when
absent in A), whatever B holds at k. -/
theorem dict_merge_overlay_exclusion_frame (fuel : Nat) (A B : Dct)
    (k : String) (r : Dct)
    (h : dict_merge fuel A B true (.dict []) (.dict [(k, .bool true)])
      = .ok r) :
    pyGet r k = pyGet A k := by
  cases fuel with
  | zero => exact Except.noConfusion h
  | succ n =>
      rw [dict_merge] at h
      simp only [iterKeys, Bind.bind, Except.bind, List.foldl_nil,
        if_true] at h
      exact mergeItems_mexcl_true_preserves _ k _ A r h

/-- Witness for C8: the excluded key `keep` retains the base value 1 against an
overlay carrying 99, while the unexcluded key `other` merges normally. -/
theorem dict_merge_overlay_exclusion_frame_witness :
    dict_merge 2 [("keep", .int 1)] [("keep", .int 99), ("other", .int 7)]
      true (.dict []) (.dict [("keep", .bool true)])
      = .ok [("keep", .int 1), ("other", .int 7)] ∧
    pyGet [("keep", .int 1), ("other", .int 7)] "keep"
      = pyGet [("keep", .int 1)] "keep" :=
  ⟨rfl, dict_merge_overlay_exclusion_frame 2 [("keep", .int 1)]
    [("keep", .int 99), ("other", .int 7)] "keep"
    [("keep", .int 1), ("other", .int 7)] rfl⟩

/-- Claim C9: merging a mapping onto itself with default options returns the
mapping unchanged, for every Python-representable mapping (distinct keys at
every nesting level) and any recursion budget covering its nesting depth. -/
theorem dict_merge_self_identity (n : Nat) :
    ∀ A : Dct, DeepNodup (.dict A) → DBound n A →
      dict_merge (n + 1) A A true (.dict []) (.dict []) = .ok A := by
  induction n using Nat.strong_induction_on with
  | _ n ih =>
      intro A hnd hb
      cases hnd with
      | dict _ hkeys hvals =>
          rw [dict_merge]
          simp only [iterKeys, Bind.bind, Except.bind, List.foldl_nil,
            if_true]
          rw [foldl_addempty_noop A A (fun p hp => pyIn_of_mem A p hp)]
          exact mergeItems_self n A A hkeys
            (fun p hp => pyGet_of_mem_nodup A p hkeys hp)
            (by
              intro p hp dv hpd
              have hvb := hb p hp
              rw [hpd] at hvb
              cases hvb with
              | dict m d hdb =>
                  have hdnd := hvals p hp
                  rw [hpd] at hdnd
                  exact ih m (Nat.lt_succ_self m) dv hdnd hdb)

/-- Witness for C9 on a two-level mapping. -/
theorem dict_merge_self_identity_witness :
    dict_merge 2 [("a", .int 1), ("b", .dict [("c", .str "x")])]
      [("a", .int 1), ("b", .dict [("c", .str "x")])]
      true (.dict []) (.dict [])
      = .ok [("a", .int 1), ("b", .dict [("c", .str "x")])] :=
  dict_merge_self_identity 1 [("a", .int 1), ("b", .dict [("c", .str "x")])]
    (by
      apply DeepNodup.dict
      · simp [KeysNodup]
      · intro p hp
        simp only [List.mem_cons, List.mem_singleton] at hp
        rcases hp with hp | hp | hp
        · rw [hp]; exact DeepNodup.int 1
        · rw [hp]
          apply DeepNodup.dict
          · simp [KeysNodup]
          · intro q hq
            simp only [List.mem_singleton] at hq
            rw [hq]; exact DeepNodup.str "x"
        · cases hp)
    (by
      intro p hp
      simp only [List.mem_cons, List.mem_singleton] at hp
      rcases hp with hp | hp | hp
      · rw [hp]; exact VBound.int 1 1
      · rw [hp]
        apply VBound.dict 0
        intro q hq
        simp only [List.mem_singleton] at hq
        rw [hq]; exact VBound.str 0 "x"
      · cases hp)

/-- Claim C10: when the current spec carries neither `_job_info` nor
`_fizzled_parents` while a detour (or addition) fragment is configured with
its superpose flag set, the membership test on the absent previous-job record
raises TypeError instead of logging the intended warning. -/
theorem superpose_without_prev_raises (fw_spec : Dct) (detour_wf_dict : Value)
    (h1 : pyIn "_job_info" fw_spec = false)
    (h2 : pyIn "_fizzled_parents" fw_spec = false)
    (h3 : isDict detour_wf_dict = true) :
    detourBaseSpecPhase fw_spec detour_wf_dict true = .error .typeError := by
  simp [detourBaseSpecPhase, classify_prev_job_info, h1, h2, h3,
    superposeBaseSpec, Bind.bind, Except.bind]

/-- Witness for C10: empty spec, single-node detour description, superpose
flag set. -/
theorem superpose_without_prev_raises_witness :
    detourBaseSpecPhase [] (.dict [("spec", .dict [])]) true
      = .error .typeError :=
  superpose_without_prev_raises [] (.dict [("spec", .dict [])]) rfl rfl rfl
